import Mathlib

/-!
Verification development for the pinkfrog-cms repository (`mcp.js`).

Strings from the JavaScript source are modelled as `List Char`; the
filesystem effects of each tool are modelled by explicit state passing.
Each definition is a direct transcription of the corresponding code in
`src/mcp.js` (line references given in the doc comments).
-/

namespace PinkfrogCms

/-- Whitespace characters removed by JavaScript `String.prototype.trim`
(ASCII portion, which is all the source ever feeds it). -/
def jsWhitespace (c : Char) : Bool :=
  c = ' ' || c = '\t' || c = '\n' || c = '\r' || c = '\x0b' || c = '\x0c'

/-- Model of JavaScript `s.trim()`: strip `jsWhitespace` from both ends. -/
def trimChars (cs : List Char) : List Char :=
  ((cs.dropWhile jsWhitespace).reverse.dropWhile jsWhitespace).reverse

/-- Model of JavaScript `s.split(sep)` for a single-character separator:
always returns at least one (possibly empty) group. -/
def splitOnChar (sep : Char) : List Char → List (List Char)
  | [] => [[]]
  | c :: cs =>
    if c = sep then [] :: splitOnChar sep cs
    else
      match splitOnChar sep cs with
      | l :: ls => (c :: l) :: ls
      | [] => [[c]]

/-- Model of JavaScript `parts.join(sep)` for a single-character separator. -/
def joinChar (sep : Char) : List (List Char) → List Char
  | [] => []
  | [l] => l
  | l :: ls => l ++ sep :: joinChar sep ls

/-- The opening frontmatter delimiter `---\n` (start of the regex
`/^---\n([\s\S]*?)\n---\n([\s\S]*)$/` in `get_page`, mcp.js:667). -/
def frontDashes : List Char := ['-', '-', '-', '\n']

/-- The closing frontmatter delimiter `\n---\n` of the same regex. -/
def closeDelim : List Char := ['\n', '-', '-', '-', '\n']

/-- Lazy search of `([\s\S]*?)\n---\n` : split the input at the earliest
occurrence of `closeDelim`, returning the part before it and the part
after it, or `none` when the delimiter never occurs. -/
def splitOnDelim : List Char → Option (List Char × List Char)
  | [] => none
  | c :: cs =>
    if closeDelim.isPrefixOf (c :: cs) then some ([], (c :: cs).drop 5)
    else
      match splitOnDelim cs with
      | some (pre, post) => some (c :: pre, post)
      | none => none

/-- Model of `value.replace(/^"(.*)"$/, '$1')` (mcp.js:678, 940): remove one
pair of surrounding double quotes; `.` does not match a newline, so a value
with an embedded newline is left alone (values come from single lines, so
this case never fires, but the model keeps the regex semantics). -/
def stripQuotes (v : List Char) : List Char :=
  if 2 ≤ v.length && v.headD ' ' = '"' && v.getLastD ' ' = '"'
      && !(v.drop 1).dropLast.contains '\n' then
    (v.drop 1).dropLast
  else v

/-- One frontmatter line (mcp.js:675-679): if the line contains `:`, split on
every `:`; the first part (trimmed) is the key, the remaining parts joined
back with `:` (trimmed, quote-stripped) are the value. -/
def parseLine (line : List Char) : Option (List Char × List Char) :=
  if line.contains ':' then
    match splitOnChar ':' line with
    | [] => none
    | k :: vs => some (trimChars k, stripQuotes (trimChars (joinChar ':' vs)))
  else none

/-- All key/value pairs of a frontmatter block, in source order
(mcp.js:673-680); lines without `:` are skipped. -/
def parseAttrs (fm : List Char) : List (List Char × List Char) :=
  (splitOnChar '\n' fm).filterMap parseLine

/-- Lookup in the JavaScript `attributes` object: the last assignment to a
key wins. -/
def lookupAttr (k : List Char) (attrs : List (List Char × List Char)) :
    Option (List Char) :=
  (attrs.reverse.find? fun p => p.1 == k).map (·.2)

/-- Frontmatter parsing of `get_page` (mcp.js:663-681): on a regex match the
attributes come from group 1 and the content is group 2 trimmed; otherwise
the attributes are empty and the content is the whole text. -/
def parsePage (text : List Char) : List (List Char × List Char) × List Char :=
  if frontDashes.isPrefixOf text then
    match splitOnDelim (text.drop 4) with
    | some (fm, rest) => (parseAttrs fm, trimChars rest)
    | none => ([], text)
  else ([], text)

/-- The key part `title: ` of the page serializer. -/
def titleKeyChars : List Char := ['t', 'i', 't', 'l', 'e', ':', ' ']

/-- Serialization used by `create_page` (mcp.js:317-321):
`---\ntitle: <title>\n---\n\n<copy>`. -/
def serializePage (title copy : List Char) : List Char :=
  frontDashes ++ (titleKeyChars ++ title) ++ closeDelim ++ ('\n' :: copy)

/-! ### Sitemap builder (`xml_sitemap`, mcp.js:885-1034) -/

/-- The line start `alias:` matched by `line.startsWith('alias:')`
(mcp.js:939). -/
def aliasKeyChars : List Char := ['a', 'l', 'i', 'a', 's', ':']

/-- The suffix pattern `/\.md$/` of `mdFile.replace(/\.md$/, '.html')`. -/
def mdSuffixChars : List Char := ['.', 'm', 'd']

/-- The replacement `'.html'`. -/
def htmlSuffixChars : List Char := ['.', 'h', 't', 'm', 'l']

/-- Model of `mdFile.replace(/\.md$/, '.html')` (mcp.js:949). -/
def replaceMdHtml (name : List Char) : List Char :=
  if mdSuffixChars.isSuffixOf name then
    name.take (name.length - 3) ++ htmlSuffixChars
  else name

/-- Alias extraction loop of `xml_sitemap` (mcp.js:937-943): the first
frontmatter line starting with `alias:` yields
`line.split(':')[1].trim().replace(/^"(.*)"$/, '$1')` — note the `[1]`:
only the segment between the first and the second colon. -/
def findAliasLine : List (List Char) → Option (List Char)
  | [] => none
  | l :: ls =>
    if aliasKeyChars.isPrefixOf l then
      some (stripQuotes (trimChars ((splitOnChar ':' l).getD 1 [])))
    else findAliasLine ls

/-- Relative URL derivation of `xml_sitemap` (mcp.js:929-954): parse the same
frontmatter regex; use the alias when it is truthy (non-null, non-empty),
otherwise the filename with `.md` replaced by `.html`. -/
def deriveRelUrl (name content : List Char) : List Char :=
  if frontDashes.isPrefixOf content then
    match splitOnDelim (content.drop 4) with
    | some (fm, _) =>
      match findAliasLine (splitOnChar '\n' fm) with
      | some a => if a = [] then replaceMdHtml name else a
      | none => replaceMdHtml name
    | none => replaceMdHtml name
  else replaceMdHtml name

/-- One entry of the `urls` array built by `xml_sitemap` (mcp.js:957-962);
`relUrl` records the derived relative URL (the local variable `url` in the
source) from which `loc` and `priority` are computed. -/
structure SitemapEntry where
  relUrl : List Char
  loc : List Char
  lastmod : List Char
  changefreq : List Char
  priority : List Char
  deriving DecidableEq

/-- The string `weekly`. -/
def weeklyChars : List Char := ['w', 'e', 'e', 'k', 'l', 'y']

/-- The string `index.html`. -/
def indexHtmlChars : List Char :=
  ['i', 'n', 'd', 'e', 'x', '.', 'h', 't', 'm', 'l']

/-- The string `1.0`. -/
def pOneChars : List Char := ['1', '.', '0']

/-- The string `0.8`. -/
def pEightChars : List Char := ['0', '.', '8']

/-- Entry construction for one page (mcp.js:957-962). `join` abstracts
`new URL(url, baseUrl).href` and `date` abstracts the clock value
`new Date().toISOString().split('T')[0]` (mcp.js:920). -/
def mkSitemapEntry (join : List Char → List Char) (date : List Char)
    (f : List Char × List Char) : SitemapEntry :=
  let url := deriveRelUrl f.1 f.2
  { relUrl := url
    loc := join url
    lastmod := date
    changefreq := weeklyChars
    priority := if url = indexHtmlChars then pOneChars else pEightChars }

/-- The `urls` list of `xml_sitemap` over the dataset's successfully read
`.md` files, given as (filename, content) pairs (mcp.js:922-968). -/
def sitemapUrls (join : List Char → List Char) (date : List Char)
    (files : List (List Char × List Char)) : List SitemapEntry :=
  files.map (mkSitemapEntry join date)

/-! ### `list_pages` (mcp.js:223-294) -/

/-- Result of `list_pages`; `directoryCreated` is `some true` exactly when
the JSON response carries the `directoryCreated: true` field. -/
structure ListPagesResult where
  pages : List (List Char)
  directoryExists : Bool
  directoryCreated : Option Bool
  deriving DecidableEq

/-- `list_pages` over the dataset content directory, whose state is `none`
when the directory is absent and `some files` when it exists with the given
entries. Returns the response and the directory state afterwards: an absent
directory is created (`fs.mkdir recursive`) and reported with
`directoryCreated: true` (mcp.js:235-261); otherwise the entries are
filtered to names ending in `.md` (mcp.js:264-268). -/
def list_pages (dirContents : Option (List (List Char))) :
    ListPagesResult × Option (List (List Char)) :=
  match dirContents with
  | none =>
    ({ pages := [], directoryExists := true, directoryCreated := some true },
      some [])
  | some files =>
    ({ pages := files.filter fun f => mdSuffixChars.isSuffixOf f,
       directoryExists := true, directoryCreated := none }, some files)

/-! ### Path resolution and `create_page` (mcp.js:296-339, 651-652)

Paths are modelled relative to `CMS_DIR` as lists of segments;
`nodeJoin` models Node's `path.join`, which concatenates its arguments
with `/` and normalizes `.`, `..` and empty segments. -/

/-- The segment `src` (`PAGES_DIR = path.join(CMS_DIR, 'src')`, mcp.js:17). -/
def srcSeg : List Char := ['s', 'r', 'c']

/-- The segment `content`. -/
def contentSeg : List Char := ['c', 'o', 'n', 't', 'e', 'n', 't']

/-- Normalization step of Node `path.join` on a relative path: empty and `.`
segments are dropped; `..` pops the previous segment unless there is none
(or it is itself a leading `..`), in which case it is kept. -/
def normalizeSegs (segs : List (List Char)) : List (List Char) :=
  segs.foldl
    (fun acc seg =>
      if seg = [] then acc
      else if seg = ['.'] then acc
      else if seg = ['.', '.'] then
        match acc.getLast? with
        | some l => if l = ['.', '.'] then acc ++ [seg] else acc.dropLast
        | none => acc ++ [seg]
      else acc ++ [seg])
    []

/-- Model of `path.join(p₁, p₂, ...)` on paths relative to `CMS_DIR`: split
every argument on `/` and normalize the concatenation. -/
def nodeJoin (parts : List (List Char)) : List (List Char) :=
  normalizeSegs (parts.flatMap (splitOnChar '/'))

/-- The path `path.join(PAGES_DIR, 'content', dataSet, name)` used by both
`create_page` (mcp.js:305,316) and `get_page` (mcp.js:651-652), relative to
`CMS_DIR`. No check restricts `name` to `.md` files or to paths inside the
dataset directory. -/
def pagePath (dataSet name : List Char) : List (List Char) :=
  nodeJoin [srcSeg, contentSeg, dataSet, name]

/-- The dataset content directory `path.join(PAGES_DIR, 'content', dataSet)`
relative to `CMS_DIR`. -/
def contentDirSegs (dataSet : List Char) : List (List Char) :=
  nodeJoin [srcSeg, contentSeg, dataSet]

/-- A path is inside a directory when the directory's segments are a prefix
of the path's segments. -/
def isInside (dir p : List (List Char)) : Bool :=
  dir.isPrefixOf p

/-- Outcome of `create_page`: the argument-validation throw (mcp.js:300-302)
or the successful write of the serialized content at the joined path
(mcp.js:316-339). -/
inductive CreatePageOutcome where
  | error
  | success (filePath : List (List Char)) (written : List Char)
  deriving DecidableEq

/-- `create_page` (mcp.js:296-339): throws when `fileName`, `title` or
`copy` is falsy; otherwise writes `---\ntitle: <title>\n---\n\n<copy>`
at `path.join(PAGES_DIR, 'content', dataSet, fileName)` unconditionally. -/
def create_page (dataSet fileName title copy : List Char) :
    CreatePageOutcome :=
  if fileName = [] || title = [] || copy = [] then .error
  else .success (pagePath dataSet fileName) (serializePage title copy)

/-! ### `get_template` (mcp.js:400-457) -/

/-- State of the file `templates/<name>` under the resolved decoration:
absent (`fs.access` rejects), present but unreadable (`fs.access` resolves,
`fs.readFile` rejects), or readable with the given content. -/
inductive FileState where
  | absent
  | unreadable
  | readable (content : List Char)
  deriving DecidableEq

/-- `get_template` result `(templateExists, template)` (mcp.js:429-442):
`templateExists := false` and `template := null` initially; inside the try
block `fs.access` success sets `templateExists := true` *before*
`fs.readFile` runs, and the catch block only logs — so a read failure after
a successful access leaves `templateExists = true` with `template = null`. -/
def get_template (fs : FileState) : Bool × Option (List Char) :=
  match fs with
  | .absent => (false, none)
  | .unreadable => (true, none)
  | .readable c => (true, some c)

/-! ### `empty_dist` (mcp.js:805-883)

The `dist` tree is modelled as a list of entries; a `file` carries a
`phantom` flag meaning the entry was listed by `readdir` but the file was
removed externally before `unlink`, so `unlink` throws. -/

/-- An entry of the `dist` tree as seen by `readdir`. -/
inductive DistEntry where
  | file (name : List Char) (phantom : Bool)
  | dir (name : List Char) (children : List DistEntry)

/-- The entries that actually exist on disk (phantom files were already
deleted externally and only appear in the listing). -/
def realEntries : List DistEntry → List DistEntry
  | [] => []
  | .file n ph :: rest =>
    if ph then realEntries rest else .file n ph :: realEntries rest
  | .dir n cs :: rest => .dir n (realEntries cs) :: realEntries rest

/-- `removeRecursive` (mcp.js:819-845) applied to the listed entries of one
directory, returning the entries that remain on disk afterwards. The
try/catch wraps the whole `for` loop, so the first throw (an `unlink` of an
externally deleted file, or an `rmdir` of a directory that is still
non-empty) abandons the remaining siblings of that directory. -/
def removeList : List DistEntry → List DistEntry
  | [] => []
  | .file _ ph :: rest =>
    if ph then realEntries rest
    else removeList rest
  | .dir n cs :: rest =>
    match removeList cs with
    | [] => removeList rest
    | c :: cs' => .dir n (c :: cs') :: realEntries rest

/-- No entry of the tree is a phantom (no external interference). -/
def noPhantoms : List DistEntry → Bool
  | [] => true
  | .file _ ph :: rest => !ph && noPhantoms rest
  | .dir _ cs :: rest => noPhantoms cs && noPhantoms rest

/-- `empty_dist` (mcp.js:805-883) over the state of `dist` (`none` when the
directory does not exist): an absent `dist` is created by the
`fs.access(..).catch(..)` recovery (mcp.js:813-816) and the removal loop
then sees an empty directory; otherwise `removeRecursive` runs on the
listed entries and `fs.mkdir(.., recursive)` re-asserts the root. The
result pairs the final state `(present, children)` with the reported
`success` flag, which is `true` in every case because `removeRecursive`
catches its own errors. -/
def empty_dist (dist : Option (List DistEntry)) :
    (Bool × List DistEntry) × Bool :=
  match dist with
  | none => ((true, []), true)
  | some cs => ((true, removeList cs), true)

/-! ### Preview server (`run_server`, mcp.js:1036-1159) -/

/-- The basename of a path: the part after the last `/`. -/
def basenameOf (p : List Char) : List Char :=
  (p.reverse.takeWhile fun c => !(c = '/')).reverse

/-- Model of Node `path.extname`: the suffix of the basename from its last
`.`, empty when the basename has no `.` past its first character (so
dotfiles and `..` have no extension). -/
def extnameOf (p : List Char) : List Char :=
  match basenameOf p with
  | [] => []
  | c :: rest =>
    if c = '.' && rest = ['.'] then []
    else if rest.contains '.' then
      '.' :: (rest.reverse.takeWhile fun d => !(d = '.')).reverse
    else []

/-- The extension `.html` appended when the request path has none
(mcp.js:1059-1061). -/
def dotHtmlChars : List Char := ['.', 'h', 't', 'm', 'l']

/-- Request-path resolution of the preview server (mcp.js:1056-1061),
relative to `dist`: `/` maps to `index.html`; any other URL is joined onto
`dist` (the leading slashes collapse under `path.join`); a path without an
extension gets `.html` appended. -/
def resolveRequest (url : List Char) : List Char :=
  let rel :=
    if url = ['/'] then indexHtmlChars
    else url.dropWhile fun c => c = '/'
  if extnameOf rel = [] then rel ++ dotHtmlChars else rel

/-- What the filesystem holds at a path under `dist`. -/
inductive FsKind where
  | absent
  | file
  | dir
  deriving DecidableEq

/-- Content-type selection of the preview server (mcp.js:1074-1103): a
`switch` on `path.extname` with default `text/html`; only the nine listed
extensions are mapped. -/
def contentTypeFor (ext : List Char) : List Char :=
  if ext = ['.', 'j', 's'] then ("text/javascript".toList)
  else if ext = ['.', 'c', 's', 's'] then ("text/css".toList)
  else if ext = ['.', 'j', 's', 'o', 'n'] then ("application/json".toList)
  else if ext = ['.', 'p', 'n', 'g'] then ("image/png".toList)
  else if ext = ['.', 'j', 'p', 'g'] then ("image/jpeg".toList)
  else if ext = ['.', 'j', 'p', 'e', 'g'] then ("image/jpeg".toList)
  else if ext = ['.', 'g', 'i', 'f'] then ("image/gif".toList)
  else if ext = ['.', 's', 'v', 'g'] then ("image/svg+xml".toList)
  else if ext = ['.', 'x', 'm', 'l'] then ("application/xml".toList)
  else ("text/html".toList)

/-- The response of the preview server to one request. -/
structure ServeResponse where
  status : Nat
  contentType : List Char
  servedPath : Option (List Char)
  deriving DecidableEq

/-- Request handling of the preview server (mcp.js:1053-1115): resolve the
path, 404 with `text/plain` when `fs.access` rejects (the file is absent),
otherwise 200 with the extension-derived content type — `fs.access`
succeeds on directories too, and no branch ever substitutes an
`index.html` inside a directory. -/
def serveRequest (fs : List Char → FsKind) (url : List Char) :
    ServeResponse :=
  let fp := resolveRequest url
  match fs fp with
  | .absent => { status := 404, contentType := ("text/plain".toList),
                 servedPath := none }
  | _ => { status := 200, contentType := contentTypeFor (extnameOf fp),
           servedPath := some fp }

/-! ### Helper lemmas -/

theorem isPrefixOf_append_self (l t : List Char) :
    l.isPrefixOf (l ++ t) = true := by
  induction l with
  | nil => simp [List.isPrefixOf]
  | cons c cs ih => simp [List.isPrefixOf, ih]

theorem eq_append_drop_of_isPrefixOf {l cs : List Char}
    (h : l.isPrefixOf cs = true) : cs = l ++ cs.drop l.length := by
  induction l generalizing cs with
  | nil => simp
  | cons c l ih =>
    cases cs with
    | nil => simp [List.isPrefixOf] at h
    | cons d ds =>
      simp only [List.isPrefixOf, Bool.and_eq_true, beq_iff_eq] at h
      obtain ⟨rfl, h2⟩ := h
      simpa using ih h2

theorem splitOnChar_ne_nil (sep : Char) (cs : List Char) :
    splitOnChar sep cs ≠ [] := by
  induction cs with
  | nil => simp [splitOnChar]
  | cons c cs ih =>
    by_cases h : c = sep
    · simp [splitOnChar, h]
    · simp only [splitOnChar, if_neg h]
      cases hs : splitOnChar sep cs with
      | nil => simp
      | cons l ls => simp

theorem joinChar_splitOnChar (sep : Char) (cs : List Char) :
    joinChar sep (splitOnChar sep cs) = cs := by
  induction cs with
  | nil => simp [splitOnChar, joinChar]
  | cons c cs ih =>
    by_cases h : c = sep
    · subst h
      simp only [splitOnChar, if_pos rfl]
      cases hs : splitOnChar c cs with
      | nil => exact absurd hs (splitOnChar_ne_nil c cs)
      | cons l ls =>
        rw [hs] at ih
        cases ls with
        | nil => simpa [joinChar] using ih
        | cons l2 ls2 => simpa [joinChar] using ih
    · simp only [splitOnChar, if_neg h]
      cases hs : splitOnChar sep cs with
      | nil => exact absurd hs (splitOnChar_ne_nil sep cs)
      | cons l ls =>
        rw [hs] at ih
        cases ls with
        | nil => simpa [joinChar] using ih
        | cons l2 ls2 => simpa [joinChar] using ih

theorem splitOnChar_append_sep {sep : Char} {pre : List Char}
    (h : sep ∉ pre) (rest : List Char) :
    splitOnChar sep (pre ++ sep :: rest) = pre :: splitOnChar sep rest := by
  induction pre with
  | nil => simp [splitOnChar]
  | cons c cs ih =>
    have hc : ¬ c = sep := fun hc => h (hc ▸ List.mem_cons_self c cs)
    have hcs : sep ∉ cs := fun hm => h (List.mem_cons_of_mem c hm)
    simp [List.cons_append, splitOnChar, if_neg hc, ih hcs]

theorem splitOnChar_no_sep {sep : Char} {cs : List Char} (h : sep ∉ cs) :
    splitOnChar sep cs = [cs] := by
  induction cs with
  | nil => simp [splitOnChar]
  | cons c cs ih =>
    have hc : ¬ c = sep := fun hc => h (hc ▸ List.mem_cons_self c cs)
    have hcs : sep ∉ cs := fun hm => h (List.mem_cons_of_mem c hm)
    simp [splitOnChar, if_neg hc, ih hcs]

theorem splitOnChar_getD_zero (sep : Char) (cs : List Char) :
    (splitOnChar sep cs).getD 0 [] =
      cs.takeWhile fun c => !(c = sep) := by
  induction cs with
  | nil => simp [splitOnChar]
  | cons c cs ih =>
    by_cases h : c = sep
    · simp [splitOnChar, h, List.takeWhile_cons]
    · simp only [splitOnChar, if_neg h]
      cases hs : splitOnChar sep cs with
      | nil => exact absurd hs (splitOnChar_ne_nil sep cs)
      | cons l ls =>
        rw [hs] at ih
        simpa [List.takeWhile_cons, h] using ih

theorem trimChars_cons_ws {c : Char} (h : jsWhitespace c = true)
    (cs : List Char) : trimChars (c :: cs) = trimChars cs := by
  simp [trimChars, List.dropWhile_cons, h]

theorem splitOnDelim_append {pre : List Char} (h : '\n' ∉ pre)
    (post : List Char) :
    splitOnDelim (pre ++ closeDelim ++ post) = some (pre, post) := by
  induction pre with
  | nil => simp [splitOnDelim, closeDelim, isPrefixOf_append_self]
  | cons c cs ih =>
    have hc : ¬ c = '\n' := fun hc => h (hc ▸ List.mem_cons_self c cs)
    have hcs : '\n' ∉ cs := fun hm => h (List.mem_cons_of_mem c hm)
    have hnp : closeDelim.isPrefixOf (c :: (cs ++ closeDelim ++ post)) = false := by
      simp [closeDelim, List.isPrefixOf]
      intro hcn
      exact absurd hcn.symm hc
    simp only [List.cons_append, splitOnDelim, List.append_eq]
    rw [hnp]
    simp only [Bool.false_eq_true, if_false]
    rw [ih hcs]

theorem splitOnDelim_eq_some {cs p q : List Char}
    (h : splitOnDelim cs = some (p, q)) : cs = p ++ closeDelim ++ q := by
  induction cs generalizing p q with
  | nil => simp [splitOnDelim] at h
  | cons c cs ih =>
    by_cases hp : closeDelim.isPrefixOf (c :: cs) = true
    · simp only [splitOnDelim, hp, if_true, Option.some.injEq, Prod.mk.injEq] at h
      obtain ⟨rfl, rfl⟩ := h
      have := eq_append_drop_of_isPrefixOf hp
      simpa [closeDelim] using this
    · simp only [splitOnDelim, hp, Bool.false_eq_true, if_false] at h
      cases hs : splitOnDelim cs with
      | none => rw [hs] at h; simp at h
      | some pq =>
        rw [hs] at h
        cases pq with
        | mk p0 q0 =>
          simp only [Option.some.injEq, Prod.mk.injEq] at h
          obtain ⟨rfl, rfl⟩ := h
          simpa using ih hs

theorem splitOnDelim_eq_none {cs : List Char}
    (h : splitOnDelim cs = none) :
    ∀ p q : List Char, cs ≠ p ++ closeDelim ++ q := by
  induction cs with
  | nil =>
    intro p q hc
    exact absurd hc.symm (by simp [closeDelim])
  | cons c cs ih =>
    intro p q hc
    by_cases hp : closeDelim.isPrefixOf (c :: cs) = true
    · simp [splitOnDelim, hp] at h
    · simp only [splitOnDelim, hp, Bool.false_eq_true, if_false] at h
      cases p with
      | nil =>
        simp only [List.nil_append] at hc
        exact absurd (hc ▸ isPrefixOf_append_self closeDelim q) hp
      | cons p0 ps =>
        simp only [List.cons_append, List.cons.injEq] at hc
        cases hs : splitOnDelim cs with
        | none => exact ih hs ps q hc.2
        | some pq => simp [hs] at h

/-- Decidable version of "the text matches the frontmatter regex
`/^---\n([\s\S]*?)\n---\n([\s\S]*)$/`". -/
def matchesFm (text : List Char) : Bool :=
  frontDashes.isPrefixOf text && (splitOnDelim (text.drop 4)).isSome

theorem matchesFm_iff (text : List Char) :
    matchesFm text = true ↔
      ∃ fm rest, text = frontDashes ++ fm ++ closeDelim ++ rest := by
  constructor
  · intro h
    simp only [matchesFm, Bool.and_eq_true, Option.isSome_iff_exists] at h
    obtain ⟨h1, ⟨p, q⟩, h2⟩ := h
    refine ⟨p, q, ?_⟩
    have hdrop := splitOnDelim_eq_some h2
    have hfull := eq_append_drop_of_isPrefixOf h1
    rw [show frontDashes.length = 4 by rfl] at hfull
    rw [hfull, hdrop]
    simp [List.append_assoc]
  · rintro ⟨fm, rest, rfl⟩
    have h1 : frontDashes.isPrefixOf
        (frontDashes ++ fm ++ closeDelim ++ rest) = true := by
      rw [show frontDashes ++ fm ++ closeDelim ++ rest
          = frontDashes ++ (fm ++ closeDelim ++ rest) by simp]
      exact isPrefixOf_append_self _ _
    have h2 : (frontDashes ++ fm ++ closeDelim ++ rest).drop 4
        = fm ++ closeDelim ++ rest := by
      simp [frontDashes]
    simp only [matchesFm, h1, Bool.true_and, h2]
    cases hs : splitOnDelim (fm ++ closeDelim ++ rest) with
    | none => exact absurd rfl (splitOnDelim_eq_none hs fm rest)
    | some pq => rfl

/-- The attribute key `title` produced by parsing a serialized page. -/
def titleWordChars : List Char := ['t', 'i', 't', 'l', 'e']

/-- The word `alias` before the colon of an `alias:` line. -/
def aliasWordChars : List Char := ['a', 'l', 'i', 'a', 's']

theorem parseLine_titleKey (title : List Char)
    (ht2 : trimChars title = title) (ht3 : stripQuotes title = title) :
    parseLine (titleKeyChars ++ title) = some (titleWordChars, title) := by
  have hcont : (titleKeyChars ++ title).contains ':' = true := by
    simp [titleKeyChars]
  have heq : titleKeyChars ++ title = titleWordChars ++ ':' :: (' ' :: title) :=
    rfl
  have hsplit : splitOnChar ':' (titleKeyChars ++ title)
      = titleWordChars :: splitOnChar ':' (' ' :: title) := by
    rw [heq, splitOnChar_append_sep (by decide)]
  simp only [parseLine, hcont, if_true]
  rw [hsplit]
  simp only [joinChar_splitOnChar]
  have htw : trimChars titleWordChars = titleWordChars := by decide
  have hsp : trimChars (' ' :: title) = title := by
    rw [trimChars_cons_ws (by decide) title, ht2]
  rw [htw, hsp, ht3]

/-- C1 (amended): for a non-empty title containing no newline, equal to its
own trim and not wrapped in double quotes, and a non-empty body equal to
its own trim, `create_page` writes `---\ntitle: <title>\n---\n\n<body>` and
parsing that text back (as `get_page` does) yields `attributes.title` equal
to the title and content equal to the body. -/
theorem create_page_get_page_roundtrip
    (ds fn title body : List Char) (hfn : fn ≠ [])
    (htn : title ≠ []) (hbn : body ≠ [])
    (ht1 : '\n' ∉ title) (ht2 : trimChars title = title)
    (ht3 : stripQuotes title = title) (hb : trimChars body = body) :
    create_page ds fn title body
      = .success (pagePath ds fn) (serializePage title body) ∧
    lookupAttr titleWordChars (parsePage (serializePage title body)).1
      = some title ∧
    (parsePage (serializePage title body)).2 = body := by
  refine ⟨by simp [create_page, hfn, htn, hbn], ?_, ?_⟩
  all_goals
    have hpre : frontDashes.isPrefixOf (serializePage title body) = true :=
      isPrefixOf_append_self _ _
    have hnl : '\n' ∉ titleKeyChars ++ title := by
      intro hm
      rcases List.mem_append.1 hm with hm | hm
      · simp [titleKeyChars] at hm
      · exact ht1 hm
    have hdrop : (serializePage title body).drop 4
        = (titleKeyChars ++ title) ++ closeDelim ++ ('\n' :: body) := rfl
    have hsplit := splitOnDelim_append hnl ('\n' :: body)
    have hparse : parsePage (serializePage title body)
        = (parseAttrs (titleKeyChars ++ title), trimChars ('\n' :: body)) := by
      simp only [parsePage, hpre, if_true, hdrop, hsplit]
    have hattrs : parseAttrs (titleKeyChars ++ title)
        = [(titleWordChars, title)] := by
      rw [parseAttrs, splitOnChar_no_sep hnl]
      simp [List.filterMap, parseLine_titleKey title ht2 ht3]
    have hcontent : trimChars ('\n' :: body) = body := by
      rw [trimChars_cons_ws (by decide) body, hb]
  · rw [hparse, hattrs]
    simp [lookupAttr, List.find?]
  · rw [hparse, hcontent]

/-- Witness for `create_page_get_page_roundtrip` at a concrete page. -/
theorem create_page_get_page_roundtrip_witness :
    create_page ['d'] ("a.md".toList) ("Hi".toList) ("# W".toList)
      = .success (pagePath ['d'] ("a.md".toList))
          (serializePage ("Hi".toList) ("# W".toList)) ∧
    lookupAttr titleWordChars
        (parsePage (serializePage ("Hi".toList) ("# W".toList))).1
      = some ("Hi".toList) ∧
    (parsePage (serializePage ("Hi".toList) ("# W".toList))).2 = ("# W".toList) :=
  create_page_get_page_roundtrip ['d'] ("a.md".toList) ("Hi".toList) ("# W".toList)
    (by decide) (by decide) (by decide) (by decide) (by decide) (by decide)
    (by decide)

/-- C1 counterexample: title `t` and body `b ` contain no line starting
with `---`, yet the round trip returns content `b` — the parser's
`.trim()` drops the body's trailing space, so the claim as stated (for
*every* such title/body) is false. -/
theorem roundtrip_trailing_space_counterexample :
    ((splitOnChar '\n' ['t']).all fun l => !(['-', '-', '-'].isPrefixOf l))
      = true ∧
    ((splitOnChar '\n' ['b', ' ']).all
        fun l => !(['-', '-', '-'].isPrefixOf l)) = true ∧
    create_page ['d'] ['p'] ['t'] ['b', ' ']
      = .success (pagePath ['d'] ['p']) (serializePage ['t'] ['b', ' ']) ∧
    (parsePage (serializePage ['t'] ['b', ' '])).2 ≠ ['b', ' '] := by
  decide

/-- C2 (amended): in `get_page` only the first colon of a frontmatter line
splits key from value and every later colon is retained in the value
(modulo the trim and quote-strip the code applies); `xml_sitemap`'s alias
extraction instead keeps only the segment between the first and the second
colon of the line (`line.split(':')[1]`), so colons inside the alias value
are not retained there. -/
theorem first_colon_splits :
    (∀ pre v : List Char, ':' ∉ pre →
      parseLine (pre ++ ':' :: v)
        = some (trimChars pre, stripQuotes (trimChars v))) ∧
    (∀ v : List Char, findAliasLine [aliasKeyChars ++ v]
      = some (stripQuotes (trimChars
          (v.takeWhile fun c => !(c = ':'))))) := by
  constructor
  · intro pre v h
    have hcont : (pre ++ ':' :: v).contains ':' = true := by simp
    simp only [parseLine, hcont, if_true]
    rw [splitOnChar_append_sep h v]
    simp only [joinChar_splitOnChar]
  · intro v
    have hp : aliasKeyChars.isPrefixOf (aliasKeyChars ++ v) = true :=
      isPrefixOf_append_self _ _
    have heq : aliasKeyChars ++ v = aliasWordChars ++ ':' :: v := rfl
    simp only [findAliasLine, hp, if_true]
    rw [heq, splitOnChar_append_sep (by decide)]
    rw [show ∀ l ls, (l :: ls : List (List Char)).getD 1 [] = ls.getD 0 []
        from fun l ls => rfl]
    rw [splitOnChar_getD_zero]

/-- Witness for `first_colon_splits` at the line `alias: a:b`. -/
theorem first_colon_splits_witness :
    parseLine (("alias".toList) ++ ':' :: (" a:b".toList))
      = some (trimChars ("alias".toList),
          stripQuotes (trimChars (" a:b".toList))) ∧
    findAliasLine [aliasKeyChars ++ (" a:b".toList)]
      = some (stripQuotes (trimChars
          ((" a:b".toList).takeWhile fun c => !(c = ':')))) :=
  ⟨first_colon_splits.1 ("alias".toList) (" a:b".toList) (by decide),
   first_colon_splits.2 (" a:b".toList)⟩

/-- C2 counterexample: on a page whose frontmatter line is `alias: a:b`,
`get_page` parses the attribute value `a:b` (colons retained) but
`xml_sitemap` derives the relative URL `a` — the text after the second
colon is dropped, so the claim's second half is false. -/
theorem alias_colon_truncation_counterexample :
    lookupAttr aliasWordChars
        (parsePage ("---\nalias: a:b\n---\nx".toList)).1 = some ("a:b".toList) ∧
    deriveRelUrl ("p.md".toList) ("---\nalias: a:b\n---\nx".toList) = ['a'] ∧
    (['a'] : List Char) ≠ ("a:b".toList) := by
  decide

/-- C9: a file whose text does not begin with a frontmatter block of the
shape `---\n<frontmatter>\n---\n<rest>` parses to empty attributes and
content equal to the whole original text. -/
theorem no_frontmatter_passthrough (text : List Char)
    (h : ¬ ∃ fm rest, text = frontDashes ++ fm ++ closeDelim ++ rest) :
    parsePage text = ([], text) := by
  have hm : matchesFm text = false := by
    cases hx : matchesFm text
    · rfl
    · exact absurd ((matchesFm_iff text).1 hx) h
  by_cases hp : frontDashes.isPrefixOf text = true
  · simp only [matchesFm, hp, Bool.true_and] at hm
    have hnone : splitOnDelim (text.drop 4) = none := by
      cases hs : splitOnDelim (text.drop 4) with
      | none => rfl
      | some pq => rw [hs] at hm; simp at hm
    simp only [parsePage, hp, if_true, hnone]
  · simp only [parsePage, hp, Bool.false_eq_true, if_false]

/-- Witness for `no_frontmatter_passthrough` at the text `hi`. -/
theorem no_frontmatter_passthrough_witness :
    parsePage ['h', 'i'] = ([], ['h', 'i']) :=
  no_frontmatter_passthrough ['h', 'i']
    (fun hex => absurd ((matchesFm_iff ['h', 'i']).2 hex) (by decide))

/-- C3 counterexample: when `fs.access` on the template succeeds but
`fs.readFile` then fails, `get_template` reports `templateExists = true`
with `template = null` — contradicting both "any failure yields
`templateExists = false`" and "`templateExists = true` occurs only with
non-null template content". -/
theorem get_template_unreadable_counterexample :
    (get_template .unreadable).1 = true ∧ (get_template .unreadable).2 = none :=
  ⟨rfl, rfl⟩

/-- C3 (amended): `get_template` tests existence before reading; only an
absent file (failed `fs.access`) yields `templateExists = false`, and then
`template = null`; a file that exists but cannot be read yields
`templateExists = true` with `template = null`; a readable file yields
`templateExists = true` with its content; a non-null template therefore
implies `templateExists = true` but not conversely. -/
theorem get_template_exists_before_read :
    get_template .absent = (false, none) ∧
    get_template .unreadable = (true, none) ∧
    (∀ fs : FileState, (get_template fs).2 ≠ none → (get_template fs).1 = true) ∧
    (∀ c : List Char, get_template (.readable c) = (true, some c)) := by
  refine ⟨rfl, rfl, ?_, fun c => rfl⟩
  intro fs h
  cases fs with
  | absent => exact absurd rfl h
  | unreadable => rfl
  | readable c => rfl

/-- Witness for `get_template_exists_before_read` at a readable file. -/
theorem get_template_exists_before_read_witness :
    (get_template (.readable ['x'])).1 = true :=
  get_template_exists_before_read.2.2.1 (.readable ['x']) (by decide)

/-- C4 counterexample: the preview server's content-type `switch` has
default `text/html`, so the unknown extension `.pdf` (which the claim's
mapping lists, and which should otherwise fall back to
`application/octet-stream`) is served as `text/html`. -/
theorem content_type_pdf_counterexample :
    contentTypeFor (".pdf".toList) = ("text/html".toList) ∧
    contentTypeFor (".pdf".toList) ≠ ("application/octet-stream".toList) := by
  decide

/-- The nine extensions the `switch` of `run_server` maps explicitly. -/
def knownExts : List (List Char) :=
  [['.', 'j', 's'], ['.', 'c', 's', 's'], ['.', 'j', 's', 'o', 'n'],
   ['.', 'p', 'n', 'g'], ['.', 'j', 'p', 'g'], ['.', 'j', 'p', 'e', 'g'],
   ['.', 'g', 'i', 'f'], ['.', 's', 'v', 'g'], ['.', 'x', 'm', 'l']]

/-- C4 (amended): every 200 response of the preview server carries the
content type selected from the resolved file's extension by the fixed
static mapping over `.js`, `.css`, `.json`, `.png`, `.jpg`, `.jpeg`,
`.gif`, `.svg` and `.xml`; every extension outside that mapping — `.html`,
`.ico`, `.txt`, `.pdf`, media and font formats, or no extension at all —
yields `text/html`, never `application/octet-stream`. -/
theorem content_type_static_mapping :
    contentTypeFor (".js".toList) = ("text/javascript".toList) ∧
    contentTypeFor (".css".toList) = ("text/css".toList) ∧
    contentTypeFor (".json".toList) = ("application/json".toList) ∧
    contentTypeFor (".png".toList) = ("image/png".toList) ∧
    contentTypeFor (".jpg".toList) = ("image/jpeg".toList) ∧
    contentTypeFor (".jpeg".toList) = ("image/jpeg".toList) ∧
    contentTypeFor (".gif".toList) = ("image/gif".toList) ∧
    contentTypeFor (".svg".toList) = ("image/svg+xml".toList) ∧
    contentTypeFor (".xml".toList) = ("application/xml".toList) ∧
    (∀ e : List Char, e ∉ knownExts → contentTypeFor e = ("text/html".toList)) ∧
    (∀ (fs : List Char → FsKind) (url : List Char),
      (serveRequest fs url).status = 200 →
      (serveRequest fs url).contentType
        = contentTypeFor (extnameOf (resolveRequest url))) := by
  refine ⟨by decide, by decide, by decide, by decide, by decide, by decide,
    by decide, by decide, by decide, ?_, ?_⟩
  · intro e he
    simp only [knownExts, List.mem_cons, List.not_mem_nil, or_false,
      not_or] at he
    obtain ⟨h1, h2, h3, h4, h5, h6, h7, h8, h9⟩ := he
    simp only [contentTypeFor, if_neg h1, if_neg h2, if_neg h3, if_neg h4,
      if_neg h5, if_neg h6, if_neg h7, if_neg h8, if_neg h9]
  · intro fs url h
    simp only [serveRequest] at h ⊢
    cases hk : fs (resolveRequest url) with
    | absent => rw [hk] at h; simp at h
    | file => rfl
    | dir => rfl

/-- Witness for `content_type_static_mapping` at extension `.woff2` and a
served request. -/
theorem content_type_static_mapping_witness :
    contentTypeFor (".woff2".toList) = ("text/html".toList) ∧
    (serveRequest (fun _ => .file) ("/a.css".toList)).contentType
      = contentTypeFor (extnameOf (resolveRequest ("/a.css".toList))) :=
  ⟨content_type_static_mapping.2.2.2.2.2.2.2.2.2.1 (".woff2".toList)
      (by decide),
   content_type_static_mapping.2.2.2.2.2.2.2.2.2.2 (fun _ => .file)
      ("/a.css".toList) (by decide)⟩

/-- The filesystem of the C5 counterexample: under `dist`, `sub` is a
directory containing `index.html`, and no file `sub.html` exists. -/
def fsSubDir (p : List Char) : FsKind :=
  if p = ("sub".toList) then .dir
  else if p = ("sub/index.html".toList) then .file
  else .absent

/-- C5 counterexample: for the request `/sub`, whose path under `dist` is
the directory `sub` containing an `index.html`, the server appends `.html`
(the path has no extension), looks only for `sub.html` and answers 404 —
it never attempts `sub/index.html`, so the claim is false for directory
paths other than the root. -/
theorem directory_request_counterexample :
    fsSubDir ("sub".toList) = .dir ∧
    fsSubDir ("sub/index.html".toList) = .file ∧
    serveRequest fsSubDir ("/sub".toList)
      = ⟨404, ("text/plain".toList), none⟩ := by
  decide

/-- C5 (amended): only the root request `/` is mapped to an `index.html`
(the one at the root of `dist`, 404 when it is absent); any other request
path is used directly — `.html` is appended when it has no extension — and
the response is 404 exactly when the resolved path is absent; the server
never substitutes `index.html` inside a subdirectory. -/
theorem server_path_resolution :
    resolveRequest ['/'] = indexHtmlChars ∧
    (∀ fs : List Char → FsKind, fs indexHtmlChars = .absent →
      serveRequest fs ['/'] = ⟨404, ("text/plain".toList), none⟩) ∧
    (∀ url : List Char, url ≠ ['/'] →
      extnameOf (url.dropWhile fun c => c = '/') = [] →
      resolveRequest url
        = (url.dropWhile fun c => c = '/') ++ dotHtmlChars) ∧
    (∀ url : List Char, url ≠ ['/'] →
      extnameOf (url.dropWhile fun c => c = '/') ≠ [] →
      resolveRequest url = url.dropWhile fun c => c = '/') ∧
    (∀ (fs : List Char → FsKind) (url : List Char),
      ((serveRequest fs url).status = 404
        ↔ fs (resolveRequest url) = .absent)) ∧
    (∀ (fs : List Char → FsKind) (url : List Char),
      (serveRequest fs url).servedPath = none ∨
      (serveRequest fs url).servedPath = some (resolveRequest url)) := by
  refine ⟨rfl, ?_, ?_, ?_, ?_, ?_⟩
  · intro fs h
    simp only [serveRequest]
    rw [show resolveRequest ['/'] = indexHtmlChars from rfl, h]
  · intro url hu he
    simp [resolveRequest, if_neg hu, he]
  · intro url hu he
    simp only [resolveRequest, if_neg hu, if_neg he]
  · intro fs url
    simp only [serveRequest]
    cases hk : fs (resolveRequest url) with
    | absent => simp
    | file => simp
    | dir => simp
  · intro fs url
    simp only [serveRequest]
    cases hk : fs (resolveRequest url) with
    | absent => left; rfl
    | file => right; rfl
    | dir => right; rfl

/-- Witness for `server_path_resolution` at concrete requests. -/
theorem server_path_resolution_witness :
    serveRequest (fun _ => .absent) ['/']
      = ⟨404, ("text/plain".toList), none⟩ ∧
    resolveRequest ("/blog".toList) = ("blog".toList) ++ dotHtmlChars ∧
    resolveRequest ("/a.css".toList) = ("a.css".toList) ∧
    ((serveRequest (fun _ => .absent) ("/x".toList)).status = 404
      ↔ (fun _ => FsKind.absent) (resolveRequest ("/x".toList)) = .absent) :=
  ⟨server_path_resolution.2.1 (fun _ => .absent) rfl,
   server_path_resolution.2.2.1 ("/blog".toList) (by decide) (by decide),
   server_path_resolution.2.2.2.1 ("/a.css".toList) (by decide) (by decide),
   server_path_resolution.2.2.2.2.1 (fun _ => .absent) ("/x".toList)⟩

/-- C6: every entry of the sitemap built by `xml_sitemap` has
`changefreq = weekly`, `lastmod` equal to the operation's current UTC date
string (the `YYYY-MM-DD` value `new Date().toISOString().split('T')[0]`,
modelled as the `date` input), and `priority = 1.0` exactly when the
derived relative URL (the quote-stripped alias when the frontmatter has a
truthy one, else the filename with `.md` replaced by `.html`) equals
`index.html`, else `priority = 0.8`. -/
theorem sitemap_entry_fields (join : List Char → List Char)
    (date : List Char) (files : List (List Char × List Char))
    (e : SitemapEntry) (he : e ∈ sitemapUrls join date files) :
    (∃ f ∈ files, e.relUrl = deriveRelUrl f.1 f.2
      ∧ e.loc = join (deriveRelUrl f.1 f.2)) ∧
    e.lastmod = date ∧
    e.changefreq = weeklyChars ∧
    e.priority
      = (if e.relUrl = indexHtmlChars then pOneChars else pEightChars) := by
  obtain ⟨f, hf, rfl⟩ := List.mem_map.1 he
  exact ⟨⟨f, hf, rfl, rfl⟩, rfl, rfl, rfl⟩

/-- Witness for `sitemap_entry_fields` on a two-page dataset. -/
theorem sitemap_entry_fields_witness :
    (∃ f ∈ [(("index.md".toList), ("# Home".toList))],
      (mkSitemapEntry id ("2025-01-01".toList)
        (("index.md".toList), ("# Home".toList))).relUrl
          = deriveRelUrl f.1 f.2
      ∧ (mkSitemapEntry id ("2025-01-01".toList)
        (("index.md".toList), ("# Home".toList))).loc
          = id (deriveRelUrl f.1 f.2)) ∧
    (mkSitemapEntry id ("2025-01-01".toList)
      (("index.md".toList), ("# Home".toList))).lastmod = ("2025-01-01".toList) ∧
    (mkSitemapEntry id ("2025-01-01".toList)
      (("index.md".toList), ("# Home".toList))).changefreq = weeklyChars ∧
    (mkSitemapEntry id ("2025-01-01".toList)
        (("index.md".toList), ("# Home".toList))).priority
      = (if (mkSitemapEntry id ("2025-01-01".toList)
          (("index.md".toList), ("# Home".toList))).relUrl = indexHtmlChars
        then pOneChars else pEightChars) :=
  sitemap_entry_fields id ("2025-01-01".toList)
    [(("index.md".toList), ("# Home".toList))]
    (mkSitemapEntry id ("2025-01-01".toList)
      (("index.md".toList), ("# Home".toList)))
    (List.mem_map.2 ⟨(("index.md".toList), ("# Home".toList)),
      List.mem_singleton.2 rfl, rfl⟩)

theorem removeList_eq_nil (cs : List DistEntry) :
    noPhantoms cs = true → removeList cs = [] := by
  induction cs using removeList.induct with
  | case1 =>
    intro _
    simp [removeList]
  | case2 n rest =>
    intro h
    simp [noPhantoms] at h
  | case3 n ph rest hph ih =>
    intro h
    simp only [noPhantoms, Bool.and_eq_true, Bool.not_eq_eq_eq_not,
      Bool.not_true] at h
    simp [removeList, h.1, ih h.2]
  | case4 n cs rest hcs ih1 ih2 =>
    intro h
    simp only [noPhantoms, Bool.and_eq_true] at h
    simp [removeList, hcs, ih2 h.2]
  | case5 n cs rest c cs' hcs ih1 =>
    intro h
    simp only [noPhantoms, Bool.and_eq_true] at h
    exact absurd (ih1 h.1 ▸ hcs) (by simp)

/-- C7 counterexample: a `dist` whose listing holds a phantom file `a`
(deleted externally between `readdir` and `unlink`) followed by a real
file `b`: the `unlink` throw is caught by the try/catch that wraps the
whole `for` loop, so the sibling `b` is never processed and `dist` is not
empty afterwards — the operation still reports success. -/
theorem empty_dist_sibling_skip_counterexample :
    empty_dist (some [.file ['a'] true, .file ['b'] false])
      = ((true, [DistEntry.file ['b'] false]), true) ∧
    (DistEntry.file ['b'] false :: []) ≠ [] := by
  constructor
  · simp [empty_dist, removeList, realEntries]
  · simp

/-- C7 (amended): `empty_dist` on a non-existent `dist` creates it and
returns success; with no external interference it removes every entry
post-order and leaves `dist` existing and empty; a failure while removing
is caught and non-fatal (success is still reported, the process does not
crash), but the remaining siblings in the failing entry's directory are
skipped rather than processed. -/
theorem empty_dist_behavior :
    empty_dist none = ((true, []), true) ∧
    (∀ cs : List DistEntry, noPhantoms cs = true →
      empty_dist (some cs) = ((true, []), true)) ∧
    (∀ cs : List DistEntry, (empty_dist (some cs)).2 = true) := by
  refine ⟨rfl, ?_, fun cs => rfl⟩
  intro cs h
  simp [empty_dist, removeList_eq_nil cs h]

/-- Witness for `empty_dist_behavior` on a nested tree. -/
theorem empty_dist_behavior_witness :
    empty_dist (some [.dir ['d'] [.file ['a'] false], .file ['b'] false])
      = ((true, []), true) :=
  empty_dist_behavior.2.1
    [.dir ['d'] [.file ['a'] false], .file ['b'] false]
    (by simp [noPhantoms])

/-- C8: `list_pages` on a dataset whose content directory does not exist
creates it recursively and returns `pages = []`, `directoryExists = true`
and `directoryCreated = true` on that same call, without throwing; on an
existing directory with no `.md` entries it returns `pages = []`,
`directoryExists = true` and no creation flag. -/
theorem list_pages_missing_and_empty :
    list_pages none = (⟨[], true, some true⟩, some []) ∧
    (∀ files : List (List Char),
      (∀ f ∈ files, mdSuffixChars.isSuffixOf f = false) →
      list_pages (some files) = (⟨[], true, none⟩, some files)) := by
  refine ⟨rfl, ?_⟩
  intro files h
  have hf : files.filter (fun f => mdSuffixChars.isSuffixOf f) = [] := by
    rw [List.filter_eq_nil_iff]
    intro a ha
    simp [h a ha]
  simp only [list_pages, hf]

/-- Witness for `list_pages_missing_and_empty` on a directory holding one
non-markdown entry. -/
theorem list_pages_missing_and_empty_witness :
    list_pages (some [("a.txt".toList)])
      = (⟨[], true, none⟩, some [("a.txt".toList)]) :=
  list_pages_missing_and_empty.2 [("a.txt".toList)] (by decide)

/-- C10: neither `create_page` nor `get_page` restricts the supplied file
name — for any non-empty arguments `create_page` succeeds and acts on
`path.join(<dataset content dir>, fileName)` with no `.md` or containment
check; the name `../evil.md` resolves outside the dataset directory; and a
page created without the `.md` suffix is never returned by `list_pages`. -/
theorem page_name_unrestricted :
    (∀ ds fn t c : List Char, fn ≠ [] → t ≠ [] → c ≠ [] →
      create_page ds fn t c
        = .success (pagePath ds fn) (serializePage t c)) ∧
    (pagePath ("default".toList) ("../evil.md".toList)
      = [("src".toList), ("content".toList), ("evil.md".toList)] ∧
     isInside (contentDirSegs ("default".toList))
       (pagePath ("default".toList) ("../evil.md".toList)) = false) ∧
    (∀ (files : List (List Char)) (fn : List Char),
      mdSuffixChars.isSuffixOf fn = false →
      fn ∉ (list_pages (some files)).1.pages) := by
  refine ⟨?_, by decide, ?_⟩
  · intro ds fn t c hfn ht hc
    simp [create_page, hfn, ht, hc]
  · intro files fn h
    simp [list_pages, List.mem_filter, h]

/-- Witness for `page_name_unrestricted`: creating `note.txt` succeeds and
the file is invisible to `list_pages`. -/
theorem page_name_unrestricted_witness :
    create_page ("default".toList) ("note.txt".toList) ['T'] ['B']
      = .success (pagePath ("default".toList) ("note.txt".toList))
          (serializePage ['T'] ['B']) ∧
    ("note.txt".toList) ∉ (list_pages (some [("note.txt".toList)])).1.pages :=
  ⟨page_name_unrestricted.1 ("default".toList) ("note.txt".toList) ['T'] ['B']
      (by decide) (by decide) (by decide),
   page_name_unrestricted.2.2 [("note.txt".toList)] ("note.txt".toList)
      (by decide)⟩

end PinkfrogCms
